import Mathlib

/-!
Verification of the arm-pack-manager cache subsystem
(`tools/arm_pack_manager/__init__.py`).

Strings are modelled as `List Char`; the file system as a partial map from
paths to file contents; the `Cache` object's mutable fields as an explicit
`CacheState` record threaded through the operations; Python exceptions as
`Except PyErr`.  Network transfers are a parameter `net : Str → Content × Bool`
giving, for each URL, the bytes the transfer writes into the destination file
and whether `curl.perform()` succeeded.  Cached bytes are represented by the
outcome of parsing them with BeautifulSoup (the only way the code observes
them).
-/

/-- Strings of the Python code, modelled as lists of characters. -/
abbrev Str := List Char

/-! ## `strip_protocol` (source lines 20-22)

`protocol_matcher = compile("\w*://")` and
`strip_protocol(url) = protocol_matcher.sub("", str(url))`.

`re.sub` scans left to right; at a position the pattern `\w*://` matches
exactly when the maximal run of word characters starting there is followed
by the three characters `://` (the greedy `\w*` cannot backtrack onto a
successful match otherwise, because no word character equals `:`); every
such match, word-run included, is deleted and scanning resumes after it. -/

/-- Python 2 `\w` on a byte string: `[a-zA-Z0-9_]`. -/
def isWordChar (c : Char) : Bool :=
  (('a' ≤ c && c ≤ 'z') || ('A' ≤ c && c ≤ 'Z') || ('0' ≤ c && c ≤ '9') || c = '_')

/-- Try to match `\w*://` at the head of `l`; on success return the rest of
the string after the match. -/
def matchAt (l : Str) : Option Str :=
  match l.dropWhile isWordChar with
  | ':' :: '/' :: '/' :: rest => some rest
  | _ => none

/-- One fuel-indexed scanning pass of `re.sub`; fuel `l.length` always
suffices because every step strictly shortens the remaining input. -/
def stripFuel : Nat → Str → Str
  | 0, l => l
  | _ + 1, [] => []
  | n + 1, c :: cs =>
    match matchAt (c :: cs) with
    | some rest => stripFuel n rest
    | none => c :: stripFuel n cs

/-- `strip_protocol` from the source: delete every `\w*://` match. -/
def strip_protocol (url : Str) : Str := stripFuel url.length url

/-- Does `l` begin with the protocol separator `://`? -/
def startsSep : Str → Bool
  | ':' :: '/' :: '/' :: _ => true
  | _ => false

/-- Does `l` contain the substring `://` anywhere? -/
def hasSep : Str → Bool
  | [] => false
  | c :: cs => startsSep (c :: cs) || hasSep cs

/-! ## Paths -/

/-- Python 2 `posixpath.join(a, b)`: an absolute `b` discards `a`. -/
def joinPath (a b : Str) : Str :=
  if b.head? = some '/' then b
  else if a = [] ∨ a.getLast? = some '/' then a ++ b
  else a ++ '/' :: b

/-- Models `xdg.BaseDirectory.save_data_path('arm-pack-manager')`: the
platform data directory for arm-pack-manager (absolute, no trailing
slash), created on demand. -/
def save_data_path : Str := "/root/.local/share/arm-pack-manager".toList

/-- The destination path computed by `cache_file` / `pull_from_cache`:
`join(save_data_path('arm-pack-manager'), strip_protocol(url))`. -/
def cache_path (url : Str) : Str := joinPath save_data_path (strip_protocol url)

/-- The path of the persisted index snapshot,
`join(save_data_path('arm-pack-manager'), "index.json")`. -/
def index_path : Str := joinPath save_data_path "index.json".toList

/-! ## Lemmas about `strip_protocol` -/

theorem startsSep_dropWhile_hasSep (p : Char → Bool) :
    ∀ l : Str, startsSep (l.dropWhile p) = true → hasSep l = true := by
  intro l
  induction l with
  | nil => intro h; simp [List.dropWhile, startsSep] at h
  | cons c cs ih =>
    intro h
    rw [List.dropWhile_cons] at h
    by_cases hc : p c = true
    · rw [if_pos hc] at h
      simp [hasSep, ih h]
    · rw [if_neg hc] at h
      simp [hasSep, h]

theorem matchAt_some_hasSep {l rest : Str} (h : matchAt l = some rest) :
    hasSep l = true := by
  unfold matchAt at h
  apply startsSep_dropWhile_hasSep isWordChar
  split at h
  · rename_i rest' heq
    rw [heq]; rfl
  · cases h

theorem hasSep_cons_false {c : Char} {cs : Str} (h : hasSep (c :: cs) = false) :
    hasSep cs = false := by
  unfold hasSep at h
  exact (Bool.or_eq_false_iff.mp h).2

theorem matchAt_none_of_no_sep {l : Str} (h : hasSep l = false) :
    matchAt l = none := by
  rcases hm : matchAt l with _ | rest
  · rfl
  · rw [matchAt_some_hasSep hm] at h; cases h

theorem stripFuel_of_no_sep : ∀ (n : Nat) (l : Str), hasSep l = false → stripFuel n l = l := by
  intro n
  induction n with
  | zero => intro l _; rfl
  | succ n ih =>
    intro l h
    cases l with
    | nil => rfl
    | cons c cs =>
      unfold stripFuel
      rw [matchAt_none_of_no_sep h]
      rw [ih cs (hasSep_cons_false h)]

/-- C9 counterexample: `strip_protocol` is not idempotent.  On the input
`":a:////"` the single match `"a://"` is deleted and its removal glues the
leading `':'` to the remaining `"//"`, so the output is `"://"`, which a
second application reduces to `""`. -/
theorem strip_protocol_not_idempotent :
    ¬ (strip_protocol (strip_protocol ":a:////".toList) =
        strip_protocol ":a:////".toList) := by decide

/-- C9 (amended): `strip_protocol` is idempotent on every input whose image
contains no occurrence of the protocol separator `"://"`; a second
application then finds no match and is the identity.  (Idempotence fails in
general: deleting a match can create a fresh separator, as on `":a:////"`.) -/
theorem strip_protocol_idempotent_of_no_sep (s : Str)
    (h : hasSep (strip_protocol s) = false) :
    strip_protocol (strip_protocol s) = strip_protocol s :=
  stripFuel_of_no_sep (strip_protocol s).length (strip_protocol s) h

/-- Witness for C9 (amended) at the concrete URL `"http://x.y"`. -/
theorem strip_protocol_idempotent_of_no_sep_witness :
    hasSep (strip_protocol "http://x.y".toList) = false ∧
      strip_protocol (strip_protocol "http://x.y".toList) =
        strip_protocol "http://x.y".toList :=
  ⟨by decide, strip_protocol_idempotent_of_no_sep "http://x.y".toList (by decide)⟩

/-! ## Data model

BeautifulSoup values are modelled by what the code observes of them: a
parsed page is a `Soup` holding the results of `soup("device")` and
`soup.find_all("pdsc")`; a `<device>` element is its own attributes plus
the sub-elements the code reads; element attribute access `tag[k]` /
`tag.get(k)` is an association-list lookup. -/

/-- The Python exceptions that can cross the functions modelled here. -/
inductive PyErr where
  | ioError     -- IOError: opening a file that does not exist
  | keyError    -- KeyError: `tag[k]` with `k` absent from the attributes
  | typeError   -- TypeError: subscripting the `None` of a missing element
  | attrError   -- AttributeError
  | valueError  -- ValueError: `json.load` on non-JSON bytes
deriving DecidableEq, Repr

/-- A markup element, reduced to its attribute map. -/
structure Tag where
  attrs : List (Str × Str)
deriving DecidableEq, Repr

/-- First-match association-list lookup: a Python dict read. -/
def alookup (k : Str) : List (Str × Str) → Option Str
  | [] => none
  | (k', v) :: r => if k' = k then some v else alookup k r

/-- `tag.get(k)` / guarded `tag[k]`. -/
def Tag.attr (t : Tag) (k : Str) : Option Str := alookup k t.attrs

/-- A `<device>` element of a PDSC file, reduced to the parts
`_generate_index_helper` and `_extract_dict` read. -/
structure Device where
  attrs : List (Str × Str)   -- own attributes: `dev['dname']`
  memory : List Tag          -- `device("memory")`
  algorithm : Option Tag     -- `device.algorithm` (`None` when absent)
  debug : Option Tag         -- `device.debug`
  compile : Option Tag       -- `device.compile`
deriving DecidableEq, Repr

/-- A `<pdsc>` element of the root index, as read by `get_urls`. -/
structure PdscTag where
  url : Option Str           -- `pdsc.get('url')`
  name : Option Str          -- `pdsc.get('name')`
deriving DecidableEq, Repr

/-- A parsed page: everything the code extracts from a BeautifulSoup. -/
structure Soup where
  devices : List Device      -- result of `soup("device")`
  pdscs : List PdscTag       -- result of `soup.find_all("pdsc")`
deriving DecidableEq, Repr

/-- The entry built by `_extract_dict`: `file` always present, the other
fields in proportion to how far the `try` block got. -/
structure DeviceRecord where
  file : Str
  memory : Option (List (Str × (Str × Str)))  -- id ↦ (start, size)
  algorithm : Option Str
  debug : Option Str
  compile : Option (Str × Str)                -- (header, define)
deriving DecidableEq, Repr

/-- The contents of a cached file, represented by their parse outcome:
a page is what BeautifulSoup extraction yields on its bytes (raising is
kept possible), and `jsonIndex` is a serialized index snapshot. -/
inductive Content where
  | page (parse : Except PyErr Soup)
  | jsonIndex (ix : List (Str × DeviceRecord))

/-- Python-dict write `d[k] = v`: replace in place if the key exists,
else append (insertion order preserved). -/
def dictSet (d : List (Str × α)) (k : Str) (v : α) : List (Str × α) :=
  if k ∈ d.map Prod.fst then
    d.map (fun kv => if kv.1 = k then (k, v) else kv)
  else d ++ [(k, v)]

/-- Python `d.update(new)`: write every pair of `new` in order. -/
def dictUpdate (d new : List (Str × α)) : List (Str × α) :=
  new.foldl (fun d kv => dictSet d kv.1 kv.2) d

/-- Python `dict(pairs)`: later pairs overwrite earlier ones. -/
def pydict (l : List (Str × α)) : List (Str × α) := dictUpdate [] l

/-! ## `_extract_dict` (source lines 156-167) -/

/-- `str.replace('\\', '/')`. -/
def slashify (s : Str) : Str := s.map (fun c => if c = '\\' then '/' else c)

/-- The comprehension
`dict([(m["id"], dict(start=m["start"], size=m["size"])) for m in device("memory")])`:
any missing attribute raises KeyError for the whole comprehension. -/
def extractMemory (ms : List Tag) : Option (List (Str × (Str × Str))) :=
  (ms.mapM fun (m : Tag) => do
    let i ← m.attr "id".toList
    let s ← m.attr "start".toList
    let z ← m.attr "size".toList
    some (i, (s, z))).map pydict

/-- `Cache._extract_dict(device, filename)`: starts from `{file: filename}`
and runs the four assignments of the `try` block in order; the first
KeyError / TypeError (missing attribute or missing element) stops the rest
but keeps what was already assigned. -/
def extract_dict (device : Device) (filename : Str) : DeviceRecord :=
  let r : DeviceRecord :=
    { file := filename, memory := none, algorithm := none, debug := none, compile := none }
  match extractMemory device.memory with
  | none => r
  | some mem =>
    let r := { r with memory := some mem }
    match device.algorithm.bind (fun t => t.attr "name".toList) with
    | none => r
    | some a =>
      let r := { r with algorithm := some (slashify a) }
      match device.debug.bind (fun t => t.attr "svd".toList) with
      | none => r
      | some d =>
        let r := { r with debug := some d }
        match device.compile with
        | none => r
        | some t =>
          match t.attr "header".toList with
          | none => r
          | some h =>
            match t.attr "define".toList with
            | none => r
            | some df => { r with compile := some (h, df) }

/-! ## File system, cache state and the cache operations -/

/-- The on-disk cache directory: a partial map from path to file bytes. -/
def FS := Str → Option Content

/-- Writing a file (`open(dest, "wb+")` then the transfer): truncate or
create at `p`, leaving whatever bytes the transfer produced. -/
def fsUpdate (fs : FS) (p : Str) (c : Content) : FS :=
  fun q => if q = p then some c else fs q

/-- The mutable fields of the `Cache` object that carry behaviour.  The
`silent` / `total` fields only drive progress printing and are omitted;
`errlog` records the URLs whose download failed (the `stderr` messages). -/
structure CacheState where
  index : List (Str × DeviceRecord)   -- `self._index`
  urls : Option (List Str)            -- `self.urls`
  counter : Nat                       -- `self.counter`
  errlog : List Str
deriving Repr

/-- `Cache.cache_file(curl, url)` (source lines 85-114): compute
`dest = join(save_data_path('arm-pack-manager'), strip_protocol(url))`,
create the parent directories, open `dest` with `"wb+"` (truncating any
previous version), run the transfer with the output directed at `dest`,
and on a transfer error only write a log line — the already-created file
stays.  The counter always advances. -/
def cache_file (net : Str → Content × Bool) (fs : FS) (st : CacheState) (url : Str) :
    FS × CacheState :=
  let dest := cache_path url
  let r := net url
  (fsUpdate fs dest r.1,
   { st with
      errlog := if r.2 then st.errlog else st.errlog ++ [url],
      counter := st.counter + 1 })

/-- `Cache.cache_descriptor_list(list)` (source lines 258-267): feed every
URL of the batch through `cache_file` via the worker queue; the pool
processes each queued item, modelled in queue order. -/
def cache_descriptor_list (net : Str → Content × Bool) (fs : FS) (st : CacheState)
    (urls : List Str) : FS × CacheState :=
  urls.foldl (fun p u => cache_file net p.1 p.2 u) (fs, st)

/-- `Cache.pull_from_cache(url)` (source lines 280-292): open the cache
path for reading — IOError when the URL was never cached — and parse the
bytes with BeautifulSoup.  Parsing JSON bytes as HTML yields a soup with
no `device` or `pdsc` elements. -/
def pull_from_cache (fs : FS) (url : Str) : Except PyErr Soup :=
  match fs (cache_path url) with
  | none => .error .ioError
  | some (.page r) => r
  | some (.jsonIndex _) => .ok { devices := [], pdscs := [] }

/-- `Cache.cache_and_parse(url)` (source lines 297-306): cache, then read back. -/
def cache_and_parse (net : Str → Content × Bool) (fs : FS) (st : CacheState) (url : Str) :
    Except PyErr (FS × CacheState × Soup) :=
  (pull_from_cache (cache_file net fs st url).1 url).map fun s =>
    ((cache_file net fs st url).1, (cache_file net fs st url).2, s)

/-- `RootPackURL` (source line 17). -/
def RootPackURL : Str := "http://www.keil.com/pack/index.idx".toList

/-- The comprehension of `Cache.get_urls()` (source line 153):
`[join(pdsc.get('url'), pdsc.get('name')) for pdsc in root_data.find_all("pdsc")]`.
`posixpath.join` looks at its second argument first: a `None` name raises
AttributeError at `name.startswith`; a `None` url raises only when the
name is not absolute (an absolute name is returned before the url is
touched). -/
def pdsc_urls (s : Soup) : Except PyErr (List Str) :=
  s.pdscs.mapM fun (p : PdscTag) =>
    match p.url, p.name with
    | some u, some n => Except.ok (joinPath u n)
    | none, some n =>
      if n.head? = some '/' then Except.ok n else Except.error PyErr.attrError
    | _, none => Except.error PyErr.attrError

/-- `Cache.get_urls()` (source lines 142-154): `if not self.urls` treats
both `None` and the empty list as unset, so only a memoised non-empty
list short-circuits; otherwise pull the root index from the cache,
falling back to `cache_and_parse` only on IOError, build the URL of every
`pdsc` element and memoise the list. -/
def get_urls (net : Str → Content × Bool) (fs : FS) (st : CacheState) :
    Except PyErr (FS × CacheState × List Str) :=
  match st.urls with
  | some (u :: us) => .ok (fs, st, u :: us)
  | _ =>
    match (match pull_from_cache fs RootPackURL with
           | .ok s => Except.ok (fs, st, s)
           | .error .ioError => cache_and_parse net fs st RootPackURL
           | .error e => .error e) with
    | .error e => .error e
    | .ok t =>
      match pdsc_urls t.2.2 with
      | .error e => .error e
      | .ok us => .ok (t.1, { t.2.1 with urls := some us }, us)

/-- The body of the `try` block of `Cache._generate_index_helper(d)`
(source lines 170-172): pull the cached descriptor and build the pair list
`[(dev['dname'], self._extract_dict(dev, d)) for dev in soup("device")]`;
reading `dev['dname']` raises KeyError when the attribute is absent. -/
def index_pairs (fs : FS) (d : Str) : Except PyErr (List (Str × DeviceRecord)) :=
  (pull_from_cache fs d).bind fun soup =>
    soup.devices.mapM fun dev =>
      match alookup "dname".toList dev.attrs with
      | some n => .ok (n, extract_dict dev d)
      | none => .error .keyError

/-- `Cache._generate_index_helper(d)` (source lines 169-176): run the
`try` block and merge the resulting entries into `self._index` with
`dict(...)` then `update`; only AttributeError is caught (printed, the
loop continues); the counter advances after the `try`. -/
def generate_index_helper (fs : FS) (st : CacheState) (d : Str) :
    Except PyErr CacheState :=
  match index_pairs fs d with
  | .ok pairs =>
    .ok { st with index := dictUpdate st.index (pydict pairs), counter := st.counter + 1 }
  | .error .attrError => .ok { st with counter := st.counter + 1 }
  | .error e => .error e

/-- `Cache.generate_index()` (source lines 193-199): reset `self._index`
and the counter, obtain the URL list, run the helper over every URL, and
persist the fresh index at `index.json`. -/
def generate_index (net : Str → Content × Bool) (fs : FS) (st : CacheState) :
    Except PyErr (FS × CacheState) :=
  (get_urls net fs { st with index := [], counter := 0 }).bind fun t =>
    (t.2.2.foldlM (fun s u => generate_index_helper t.1 s u) t.2.1).map fun st2 =>
      (fsUpdate t.1 index_path (.jsonIndex st2.index), st2)

/-- The `Cache.index` property (source lines 212-236): when no in-memory
index is loaded, try to open `index.json` (loading non-JSON bytes raises
ValueError, which is not caught); only the IOError of a missing snapshot
is caught, triggering `generate_index()`.  Returns `self._index`. -/
def index_property (net : Str → Content × Bool) (fs : FS) (st : CacheState) :
    Except PyErr (FS × CacheState × List (Str × DeviceRecord)) :=
  if st.index = [] then
    match fs index_path with
    | some (.jsonIndex ix) => .ok (fs, { st with index := ix }, ix)
    | some (.page _) => .error .valueError
    | none => (generate_index net fs st).map fun p => (p.1, p.2, p.2.index)
  else .ok (fs, st, st.index)

/-! ## C1: deterministic cache path, idempotent re-fetch -/

/-- C1: the path `cache_file` writes to is the deterministic function
`cache_path` of the URL (the data directory joined with the
protocol-stripped URL): one fetch makes the file system the point update
of that path, and re-fetching the same URL overwrites the same path in
place, leaving exactly the single updated file. -/
theorem cache_file_deterministic_path (net net' : Str → Content × Bool)
    (fs : FS) (st st' : CacheState) (u : Str) :
    (cache_file net fs st u).1 = fsUpdate fs (cache_path u) (net u).1 ∧
    (cache_file net' (cache_file net fs st u).1 st' u).1
      = fsUpdate fs (cache_path u) (net' u).1 := by
  constructor
  · rfl
  · funext q
    by_cases hq : q = cache_path u <;> simp [cache_file, fsUpdate, hq]

/-! ## Batch caching lemmas -/

theorem cache_descriptor_list_counter (net : Str → Content × Bool) :
    ∀ (us : List Str) (fs : FS) (st : CacheState),
      (cache_descriptor_list net fs st us).2.counter = st.counter + us.length := by
  intro us
  induction us with
  | nil => intro fs st; rfl
  | cons u us ih =>
    intro fs st
    show (cache_descriptor_list net (cache_file net fs st u).1
        (cache_file net fs st u).2 us).2.counter = _
    rw [ih]
    show st.counter + 1 + us.length = st.counter + (us.length + 1)
    omega

theorem cache_descriptor_list_errlog_mem (net : Str → Content × Bool) :
    ∀ (us : List Str) (fs : FS) (st : CacheState) (x : Str),
      x ∈ st.errlog → x ∈ (cache_descriptor_list net fs st us).2.errlog := by
  intro us
  induction us with
  | nil => intro fs st x h; exact h
  | cons u us ih =>
    intro fs st x h
    show x ∈ (cache_descriptor_list net (cache_file net fs st u).1
        (cache_file net fs st u).2 us).2.errlog
    apply ih
    show x ∈ (if (net u).2 then st.errlog else st.errlog ++ [u])
    by_cases hn : (net u).2 = true
    · rw [if_pos hn]; exact h
    · rw [if_neg hn]; exact List.mem_append_left _ h

theorem cache_descriptor_list_fs_untouched (net : Str → Content × Bool) :
    ∀ (us : List Str) (fs : FS) (st : CacheState) (p : Str),
      (∀ v ∈ us, cache_path v ≠ p) →
      (cache_descriptor_list net fs st us).1 p = fs p := by
  intro us
  induction us with
  | nil => intro fs st p _; rfl
  | cons u us ih =>
    intro fs st p h
    show (cache_descriptor_list net (cache_file net fs st u).1
        (cache_file net fs st u).2 us).1 p = fs p
    rw [ih _ _ _ (fun v hv => h v (List.mem_cons_of_mem _ hv))]
    show (if p = cache_path u then some (net u).1 else fs p) = fs p
    rw [if_neg (fun hp => h u (List.mem_cons_self u us) hp.symm)]

theorem generate_index_helper_no_devices (fs : FS) (st : CacheState) (u : Str)
    (ps : List PdscTag) (h : fs (cache_path u) = some (.page (.ok ⟨[], ps⟩))) :
    generate_index_helper fs st u = .ok { st with counter := st.counter + 1 } := by
  unfold generate_index_helper index_pairs pull_from_cache
  rw [h]
  rfl

/-! ## C3: a failing download is logged and skipped, but not absent -/

/-- C3 counterexample: after a batch in which the download of
`"http://v.com/bad.pdsc"` fails, a file does exist at the cache path of
that URL — `cache_file` opens the destination with `"wb+"` before the
transfer and the except-branch only logs, so the created (empty) file
stays.  The claim that no file exists at that path is false. -/
theorem cache_failed_url_file_exists :
    (cache_descriptor_list (fun _ => (Content.page (.ok ⟨[], []⟩), false))
        (fun _ => none) ⟨[], none, 0, []⟩ ["http://v.com/bad.pdsc".toList]).1
      (cache_path "http://v.com/bad.pdsc".toList)
    = some (Content.page (.ok ⟨[], []⟩)) ∧
    (cache_descriptor_list (fun _ => (Content.page (.ok ⟨[], []⟩), false))
        (fun _ => none) ⟨[], none, 0, []⟩ ["http://v.com/bad.pdsc".toList]).1
      (cache_path "http://v.com/bad.pdsc".toList) ≠ none :=
  ⟨rfl, fun h => Option.noConfusion h⟩

/-- C3 (amended): when the download of one URL in a batch fails, the
failure is logged and the batch continues (every queued URL is processed),
but an empty or partial file is left at the failed URL's cache path — the
entry is not absent from the cache; because those bytes parse to no
`device` elements, the URL still contributes no entries to a subsequently
built index. -/
theorem cache_failure_logged_and_skipped (net : Str → Content × Bool)
    (fs : FS) (st st2 : CacheState) (us1 us2 : List Str) (u : Str)
    (hfail : net u = (Content.page (.ok ⟨[], []⟩), false))
    (hlater : ∀ v ∈ us2, cache_path v ≠ cache_path u) :
    u ∈ (cache_descriptor_list net fs st (us1 ++ u :: us2)).2.errlog ∧
    (cache_descriptor_list net fs st (us1 ++ u :: us2)).2.counter
      = st.counter + (us1.length + 1 + us2.length) ∧
    (cache_descriptor_list net fs st (us1 ++ u :: us2)).1 (cache_path u)
      = some (Content.page (.ok ⟨[], []⟩)) ∧
    generate_index_helper (cache_descriptor_list net fs st (us1 ++ u :: us2)).1 st2 u
      = .ok { st2 with counter := st2.counter + 1 } := by
  have hsplit : cache_descriptor_list net fs st (us1 ++ u :: us2)
      = cache_descriptor_list net
          (cache_file net (cache_descriptor_list net fs st us1).1
            (cache_descriptor_list net fs st us1).2 u).1
          (cache_file net (cache_descriptor_list net fs st us1).1
            (cache_descriptor_list net fs st us1).2 u).2 us2 := by
    unfold cache_descriptor_list
    rw [List.foldl_append]
    rfl
  have hfs : (cache_descriptor_list net fs st (us1 ++ u :: us2)).1 (cache_path u)
      = some (Content.page (.ok ⟨[], []⟩)) := by
    rw [hsplit, cache_descriptor_list_fs_untouched net us2 _ _ _ hlater]
    show (if cache_path u = cache_path u
        then some (net u).1 else (cache_descriptor_list net fs st us1).1 (cache_path u))
      = some (Content.page (.ok ⟨[], []⟩))
    rw [if_pos rfl, hfail]
  refine ⟨?_, ?_, hfs, generate_index_helper_no_devices _ _ _ _ hfs⟩
  · rw [hsplit]
    apply cache_descriptor_list_errlog_mem
    show u ∈ (if (net u).2 then _ else (cache_descriptor_list net fs st us1).2.errlog ++ [u])
    rw [hfail]
    exact List.mem_append_right _ (List.mem_singleton.mpr rfl)
  · rw [hsplit, cache_descriptor_list_counter]
    show (cache_descriptor_list net fs st us1).2.counter + 1 + us2.length = _
    rw [cache_descriptor_list_counter]
    omega

/-- Witness for C3 (amended): a one-element batch whose single download fails. -/
theorem cache_failure_logged_and_skipped_witness :
    (fun _ => (Content.page (.ok ⟨[], []⟩), false) : Str → Content × Bool)
        "http://v.com/bad.pdsc".toList = (Content.page (.ok ⟨[], []⟩), false) ∧
    (∀ v ∈ ([] : List Str), cache_path v ≠ cache_path "http://v.com/bad.pdsc".toList) ∧
    ("http://v.com/bad.pdsc".toList
        ∈ (cache_descriptor_list (fun _ => (Content.page (.ok ⟨[], []⟩), false))
            (fun _ => none) ⟨[], none, 0, []⟩
            ([] ++ "http://v.com/bad.pdsc".toList :: [])).2.errlog ∧
      (cache_descriptor_list (fun _ => (Content.page (.ok ⟨[], []⟩), false))
            (fun _ => none) ⟨[], none, 0, []⟩
            ([] ++ "http://v.com/bad.pdsc".toList :: [])).2.counter
        = (⟨[], none, 0, []⟩ : CacheState).counter + (0 + 1 + 0) ∧
      (cache_descriptor_list (fun _ => (Content.page (.ok ⟨[], []⟩), false))
            (fun _ => none) ⟨[], none, 0, []⟩
            ([] ++ "http://v.com/bad.pdsc".toList :: [])).1
          (cache_path "http://v.com/bad.pdsc".toList)
        = some (Content.page (.ok ⟨[], []⟩)) ∧
      generate_index_helper
          (cache_descriptor_list (fun _ => (Content.page (.ok ⟨[], []⟩), false))
            (fun _ => none) ⟨[], none, 0, []⟩
            ([] ++ "http://v.com/bad.pdsc".toList :: [])).1
          (⟨[], none, 0, []⟩ : CacheState) "http://v.com/bad.pdsc".toList
        = .ok { (⟨[], none, 0, []⟩ : CacheState) with counter := 0 + 1 }) :=
  ⟨rfl, by simp,
   cache_failure_logged_and_skipped (fun _ => (Content.page (.ok ⟨[], []⟩), false))
     (fun _ => none) ⟨[], none, 0, []⟩ ⟨[], none, 0, []⟩ [] []
     "http://v.com/bad.pdsc".toList rfl (by simp)⟩

/-! ## C6: which per-descriptor failures are caught during index build -/

/-- C6 counterexample: a parsing failure for one cached descriptor does
abort index construction.  With one cached descriptor whose single
`device` element has no `dname` attribute, `dev['dname']` raises a
KeyError, which the helper's `except AttributeError` does not catch, and
`generate_index` stops with that error instead of skipping the
descriptor. -/
theorem generate_index_keyError_aborts :
    generate_index (fun _ => (Content.page (.ok ⟨[], []⟩), true))
        (fun p => if p = cache_path "http://v.com/a.pdsc".toList
            then some (.page (.ok ⟨[⟨[], [], none, none, none⟩], []⟩)) else none)
        ⟨[], some ["http://v.com/a.pdsc".toList], 0, []⟩
      = .error .keyError ∧
    generate_index_helper
        (fun p => if p = cache_path "http://v.com/a.pdsc".toList
            then some (.page (.ok ⟨[⟨[], [], none, none, none⟩], []⟩)) else none)
        ⟨[], some ["http://v.com/a.pdsc".toList], 0, []⟩
        "http://v.com/a.pdsc".toList
      = .error .keyError :=
  ⟨rfl, rfl⟩

/-- C6 (amended): only an AttributeError raised while processing one
cached descriptor is caught (and logged) by `_generate_index_helper`; the
loop then continues with the index unchanged by that descriptor and the
counter advanced.  Other per-descriptor failures — a KeyError from a
`device` element with no `dname` attribute, or the IOError of an uncached
URL — are not caught and abort the build. -/
theorem generate_index_helper_attrError_caught (fs : FS) (st : CacheState) (u : Str)
    (h : fs (cache_path u) = some (.page (.error .attrError))) :
    generate_index_helper fs st u = .ok { st with counter := st.counter + 1 } := by
  unfold generate_index_helper index_pairs pull_from_cache
  rw [h]
  rfl

/-- Witness for C6 (amended): a cached file whose parse raises AttributeError. -/
theorem generate_index_helper_attrError_caught_witness :
    (fun p => if p = cache_path "http://v.com/b.pdsc".toList
        then some (Content.page (.error .attrError)) else none : FS)
      (cache_path "http://v.com/b.pdsc".toList)
      = some (Content.page (.error .attrError)) ∧
    generate_index_helper
        (fun p => if p = cache_path "http://v.com/b.pdsc".toList
            then some (Content.page (.error .attrError)) else none)
        ⟨[], none, 0, []⟩ "http://v.com/b.pdsc".toList
      = .ok { (⟨[], none, 0, []⟩ : CacheState) with counter := 0 + 1 } :=
  ⟨by simp,
   generate_index_helper_attrError_caught
     (fun p => if p = cache_path "http://v.com/b.pdsc".toList
         then some (Content.page (.error .attrError)) else none)
     ⟨[], none, 0, []⟩ "http://v.com/b.pdsc".toList (by simp)⟩

/-! ## C7: reading an uncached URL -/

/-- C7 counterexample: the hard I/O failure of reading a never-cached URL
is caught inside the subsystem.  With an empty cache,
`pull_from_cache(RootPackURL)` raises IOError, yet `get_urls` catches
exactly that IOError and falls back to `cache_and_parse` (a fresh
download), returning normally instead of propagating the failure. -/
theorem get_urls_catches_ioError :
    pull_from_cache (fun _ => none) RootPackURL = .error .ioError ∧
    (get_urls (fun _ => (Content.page (.ok ⟨[], []⟩), true)) (fun _ => none)
        ⟨[], none, 0, []⟩).isOk = true :=
  ⟨rfl, rfl⟩

/-- C7 (amended): `pull_from_cache` on a never-cached URL raises IOError
with no retry, fallback or default — and during index construction
(`_generate_index_helper`) the error propagates uncaught to the caller;
`get_urls`, however, catches the IOError for the root index URL and falls
back to downloading it. -/
theorem pull_from_cache_uncached_raises (fs : FS) (st : CacheState) (u : Str)
    (h : fs (cache_path u) = none) :
    pull_from_cache fs u = .error .ioError ∧
      generate_index_helper fs st u = .error .ioError := by
  constructor
  · unfold pull_from_cache
    rw [h]
  · unfold generate_index_helper index_pairs pull_from_cache
    rw [h]
    rfl

/-- Witness for C7 (amended): the empty cache and an arbitrary URL. -/
theorem pull_from_cache_uncached_raises_witness :
    (fun _ => none : FS) (cache_path "http://v.com/c.pdsc".toList) = none ∧
    (pull_from_cache (fun _ => none) "http://v.com/c.pdsc".toList = .error .ioError ∧
      generate_index_helper (fun _ => none) ⟨[], none, 0, []⟩
          "http://v.com/c.pdsc".toList = .error .ioError) :=
  ⟨rfl, pull_from_cache_uncached_raises (fun _ => none) ⟨[], none, 0, []⟩
    "http://v.com/c.pdsc".toList rfl⟩

/-! ## C10: the index property regenerates on a missing snapshot -/

/-- C10: when no in-memory index is loaded and the persisted `index.json`
snapshot cannot be opened, the `index` property catches that IOError and
silently runs a full `generate_index()` (fetching whatever the rebuild
needs through `get_urls`), returning the regenerated index rather than
surfacing the missing-snapshot I/O error. -/
theorem index_property_regenerates (net : Str → Content × Bool)
    (fs fs' : FS) (st st' : CacheState)
    (h0 : st.index = [])
    (h1 : fs index_path = none)
    (h2 : generate_index net fs st = .ok (fs', st')) :
    index_property net fs st = .ok (fs', st', st'.index) := by
  unfold index_property
  rw [if_pos h0, h1, h2]
  rfl

/-- Witness for C10: an empty cache state whose memoised URL list holds
one already-cached descriptor, so the rebuild succeeds at once. -/
theorem index_property_regenerates_witness :
    (⟨[], some ["http://v.com/a.pdsc".toList], 0, []⟩ : CacheState).index = [] ∧
    (fun p => if p = cache_path "http://v.com/a.pdsc".toList
        then some (Content.page (.ok ⟨[], []⟩)) else none : FS) index_path = none ∧
    index_property (fun _ => (Content.page (.ok ⟨[], []⟩), true))
        (fun p => if p = cache_path "http://v.com/a.pdsc".toList
            then some (Content.page (.ok ⟨[], []⟩)) else none)
        ⟨[], some ["http://v.com/a.pdsc".toList], 0, []⟩
      = .ok (fsUpdate
            (fun p => if p = cache_path "http://v.com/a.pdsc".toList
                then some (Content.page (.ok ⟨[], []⟩)) else none)
            index_path (.jsonIndex []),
          ⟨[], some ["http://v.com/a.pdsc".toList], 1, []⟩, []) :=
  ⟨rfl, rfl,
   index_property_regenerates (fun _ => (Content.page (.ok ⟨[], []⟩), true))
     (fun p => if p = cache_path "http://v.com/a.pdsc".toList
         then some (Content.page (.ok ⟨[], []⟩)) else none)
     (fsUpdate
       (fun p => if p = cache_path "http://v.com/a.pdsc".toList
           then some (Content.page (.ok ⟨[], []⟩)) else none)
       index_path (.jsonIndex []))
     ⟨[], some ["http://v.com/a.pdsc".toList], 0, []⟩
     ⟨[], some ["http://v.com/a.pdsc".toList], 1, []⟩ rfl rfl rfl⟩

/-! ## C4: partial device records -/

/-- C4 counterexample: a device element that lacks the flash-algorithm
name (its `algorithm` element is absent) but carries a complete `memory`
element does not yield a record with only the `file` field: the `try`
block assigns `memory` before reaching the failing `algorithm` access, so
the returned record also carries the memory map. -/
theorem extract_dict_not_only_file :
    (extract_dict
        ⟨[], [⟨[("id".toList, "IROM1".toList), ("start".toList, "0x0".toList),
               ("size".toList, "0x1000".toList)]⟩], none, none, none⟩
        "http://v.com/a.pdsc".toList).memory ≠ none ∧
    extract_dict
        ⟨[], [⟨[("id".toList, "IROM1".toList), ("start".toList, "0x0".toList),
               ("size".toList, "0x1000".toList)]⟩], none, none, none⟩
        "http://v.com/a.pdsc".toList
      ≠ { file := "http://v.com/a.pdsc".toList, memory := none,
          algorithm := none, debug := none, compile := none } := by
  constructor
  · intro h
    exact Option.noConfusion h
  · intro h
    exact Option.noConfusion (congrArg DeviceRecord.memory h)

/-- C4 (amended): `_extract_dict` never raises: a missing required
attribute stops the `try` block but keeps the fields already assigned.
For a descriptor with no flash-algorithm name the record holds the `file`
field plus exactly the memory map extracted before the failure (and only
the `file` field when the memory extraction itself fails), with
`algorithm`, `debug` and `compile` all absent. -/
theorem extract_dict_missing_algorithm (device : Device) (f : Str)
    (halg : device.algorithm.bind (fun t => t.attr "name".toList) = none) :
    extract_dict device f =
      { file := f, memory := extractMemory device.memory,
        algorithm := none, debug := none, compile := none } := by
  unfold extract_dict
  rcases hm : extractMemory device.memory with _ | mem
  · rfl
  · rw [halg]

/-- Witness for C4 (amended): the device with a complete memory element
and no algorithm element. -/
theorem extract_dict_missing_algorithm_witness :
    (⟨[], [⟨[("id".toList, "IROM1".toList), ("start".toList, "0x0".toList),
            ("size".toList, "0x1000".toList)]⟩], none, none, none⟩ : Device).algorithm.bind
        (fun t => t.attr "name".toList) = none ∧
    extract_dict
        ⟨[], [⟨[("id".toList, "IROM1".toList), ("start".toList, "0x0".toList),
               ("size".toList, "0x1000".toList)]⟩], none, none, none⟩
        "http://v.com/a.pdsc".toList
      = { file := "http://v.com/a.pdsc".toList,
          memory := extractMemory
            (⟨[], [⟨[("id".toList, "IROM1".toList), ("start".toList, "0x0".toList),
                    ("size".toList, "0x1000".toList)]⟩], none, none, none⟩ : Device).memory,
          algorithm := none, debug := none, compile := none } :=
  ⟨rfl,
   extract_dict_missing_algorithm
     ⟨[], [⟨[("id".toList, "IROM1".toList), ("start".toList, "0x0".toList),
            ("size".toList, "0x1000".toList)]⟩], none, none, none⟩
     "http://v.com/a.pdsc".toList rfl⟩

/-! ## C5: the rebuilt index is a pure function of the cache contents -/

theorem generate_index_helper_urls (fs : FS) (st st' : CacheState) (u : Str)
    (h : generate_index_helper fs st u = .ok st') : st'.urls = st.urls := by
  unfold generate_index_helper at h
  split at h
  · cases h; rfl
  · cases h; rfl
  · cases h

theorem foldlM_helper_urls (fs : FS) :
    ∀ (us : List Str) (st st' : CacheState),
      us.foldlM (fun s u => generate_index_helper fs s u) st = .ok st' →
      st'.urls = st.urls := by
  intro us
  induction us with
  | nil => intro st st' h; cases h; rfl
  | cons u us ih =>
    intro st st' h
    rw [List.foldlM_cons] at h
    cases hh : generate_index_helper fs st u with
    | error e => rw [hh] at h; cases h
    | ok s1 =>
      rw [hh] at h
      have h2 : us.foldlM (fun s u => generate_index_helper fs s u) s1 = .ok st' := h
      rw [ih s1 st' h2]
      exact generate_index_helper_urls fs st s1 u hh

theorem generate_index_helper_index_congr (fs1 fs2 : FS) (st1 st2 : CacheState) (u : Str)
    (hfs : fs1 (cache_path u) = fs2 (cache_path u))
    (hix : st1.index = st2.index) :
    (generate_index_helper fs1 st1 u).map CacheState.index
      = (generate_index_helper fs2 st2 u).map CacheState.index := by
  have hp : index_pairs fs1 u = index_pairs fs2 u := by
    unfold index_pairs pull_from_cache
    rw [hfs]
  unfold generate_index_helper
  rw [hp, hix]
  rcases hb : index_pairs fs2 u with e | pairs
  · cases e <;> rfl
  · rfl

theorem foldlM_helper_index_congr (fs1 fs2 : FS) :
    ∀ (us : List Str) (st1 st2 : CacheState),
      (∀ u ∈ us, fs1 (cache_path u) = fs2 (cache_path u)) →
      st1.index = st2.index →
      (us.foldlM (fun s u => generate_index_helper fs1 s u) st1).map CacheState.index
        = (us.foldlM (fun s u => generate_index_helper fs2 s u) st2).map CacheState.index := by
  intro us
  induction us with
  | nil =>
    intro st1 st2 _ hix
    show (Except.ok st1.index : Except PyErr (List (Str × DeviceRecord)))
      = Except.ok st2.index
    rw [hix]
  | cons u us ih =>
    intro st1 st2 hfs hix
    rw [List.foldlM_cons, List.foldlM_cons]
    have hc := generate_index_helper_index_congr fs1 fs2 st1 st2 u
      (hfs u (List.mem_cons_self u us)) hix
    cases h1 : generate_index_helper fs1 st1 u with
    | error e =>
      rw [h1] at hc
      cases h2 : generate_index_helper fs2 st2 u with
      | error e' =>
        rw [h2] at hc
        have he : e = e' := Except.error.inj hc
        rw [he]
        rfl
      | ok s2 =>
        rw [h2] at hc
        exact Except.noConfusion hc
    | ok s1 =>
      rw [h1] at hc
      cases h2 : generate_index_helper fs2 st2 u with
      | error e' =>
        rw [h2] at hc
        exact Except.noConfusion hc
      | ok s2 =>
        rw [h2] at hc
        have hix' : s1.index = s2.index := Except.ok.inj hc
        exact ih s1 s2 (fun v hv => hfs v (List.mem_cons_of_mem _ hv)) hix'

theorem except_bind_ok {α β : Type} (a : α) (f : α → Except PyErr β) :
    (Except.ok a).bind f = f a := rfl

theorem except_bind_error {α β : Type} (e : PyErr) (f : α → Except PyErr β) :
    (Except.error e : Except PyErr α).bind f = .error e := rfl

theorem except_map_ok {α β : Type} (f : α → β) (a : α) :
    (Except.ok a : Except PyErr α).map f = .ok (f a) := rfl

theorem except_map_error {α β : Type} (f : α → β) (e : PyErr) :
    (Except.error e : Except PyErr α).map f = .error e := rfl

theorem cache_and_parse_state (net : Str → Content × Bool) (fs fsr : FS)
    (st str : CacheState) (url : Str) (s : Soup)
    (h : cache_and_parse net fs st url = .ok (fsr, str, s)) :
    str.index = st.index ∧ str.urls = st.urls := by
  unfold cache_and_parse at h
  cases hp : pull_from_cache (cache_file net fs st url).1 url with
  | error e => rw [hp, except_map_error] at h; cases h
  | ok s' =>
    rw [hp, except_map_ok] at h
    simp only [Except.ok.injEq, Prod.mk.injEq] at h
    obtain ⟨-, h2, -⟩ := h
    rw [← h2]
    exact ⟨rfl, rfl⟩

theorem get_urls_state (net : Str → Content × Bool) (fs fs' : FS)
    (st st' : CacheState) (us : List Str)
    (h : get_urls net fs st = .ok (fs', st', us)) :
    st'.urls = some us ∧ st'.index = st.index := by
  unfold get_urls at h
  split at h
  · rename_i us0 heq
    simp only [Except.ok.injEq, Prod.mk.injEq] at h
    obtain ⟨-, hst, hus⟩ := h
    rw [← hst, ← hus]
    exact ⟨heq, rfl⟩
  · rename_i heq
    split at h
    · cases h
    · rename_i t hroot
      split at h
      · cases h
      · rename_i us0 hus0
        simp only [Except.ok.injEq, Prod.mk.injEq] at h
        obtain ⟨-, hst, hus⟩ := h
        rw [← hst, ← hus]
        refine ⟨rfl, ?_⟩
        show t.2.1.index = st.index
        split at hroot
        · rename_i s hpull
          simp only [Except.ok.injEq] at hroot
          rw [← hroot]
        · rename_i hpull
          exact (cache_and_parse_state net fs t.1 st t.2.1 RootPackURL t.2.2
            (by rw [hroot])).1
        · cases hroot

/-! ## `find_device` (source lines 201-206)

The resolved `self.index` dict is viewed as its key list `keys` (distinct,
in insertion order) together with the total lookup `val` on those keys.
The fuzzywuzzy scorer is an external library, modelled as a parameter
`score`.  Python compares the `(score, name)` tuples lexicographically,
strings by character code. -/

/-- Python 2 string `<=`: lexicographic on character codes. -/
def strLeB : Str → Str → Bool
  | [], _ => true
  | _ :: _, [] => false
  | a :: as, b :: bs =>
    if a.toNat < b.toNat then true
    else if b.toNat < a.toNat then false
    else strLeB as bs

/-- Python tuple `<=` on `(score, name)` pairs. -/
def tupLeB (a b : Nat × Str) : Bool :=
  if a.1 < b.1 then true else if b.1 < a.1 then false else strLeB a.2 b.2

/-- The order of `sorted(..., reverse=True)`: descending tuples. -/
def tupGe (a b : Nat × Str) : Prop := tupLeB b a = true

instance : DecidableRel tupGe :=
  fun a b => inferInstanceAs (Decidable (tupLeB b a = true))

/-- The order fuzzywuzzy's `process.extract` returns its results in:
descending score. -/
def scoreGe (a b : Str × Nat) : Prop := b.2 ≤ a.2

instance : DecidableRel scoreGe :=
  fun a b => inferInstanceAs (Decidable (b.2 ≤ a.2))

instance : IsTotal (Str × Nat) scoreGe := ⟨fun a b => Nat.le_total b.2 a.2⟩

instance : IsTrans (Str × Nat) scoreGe :=
  ⟨fun _ _ _ h1 h2 => Nat.le_trans h2 h1⟩

theorem strLeB_total : ∀ (a b : Str), strLeB a b = true ∨ strLeB b a = true := by
  intro a
  induction a with
  | nil => intro b; left; rfl
  | cons x as ih =>
    intro b
    cases b with
    | nil => right; rfl
    | cons y bs =>
      simp only [strLeB]
      by_cases hxy : x.toNat < y.toNat
      · left; rw [if_pos hxy]
      · by_cases hyx : y.toNat < x.toNat
        · right; rw [if_pos hyx]
        · rw [if_neg hxy, if_neg hyx, if_neg hyx, if_neg hxy]
          exact ih bs

theorem strLeB_trans :
    ∀ (a b c : Str), strLeB a b = true → strLeB b c = true → strLeB a c = true := by
  intro a
  induction a with
  | nil => intro b c _ _; rfl
  | cons x as ih =>
    intro b c hab hbc
    cases b with
    | nil => simp [strLeB] at hab
    | cons y bs =>
      cases c with
      | nil => simp [strLeB] at hbc
      | cons z cs =>
        simp only [strLeB] at hab hbc ⊢
        by_cases hxy : x.toNat < y.toNat
        · by_cases hyz : y.toNat < z.toNat
          · rw [if_pos (show x.toNat < z.toNat by omega)]
          · rw [if_neg hyz] at hbc
            by_cases hzy : z.toNat < y.toNat
            · rw [if_pos hzy] at hbc; cases hbc
            · rw [if_pos (show x.toNat < z.toNat by omega)]
        · rw [if_neg hxy] at hab
          by_cases hyx : y.toNat < x.toNat
          · rw [if_pos hyx] at hab; cases hab
          · rw [if_neg hyx] at hab
            by_cases hyz : y.toNat < z.toNat
            · rw [if_pos (show x.toNat < z.toNat by omega)]
            · rw [if_neg hyz] at hbc
              by_cases hzy : z.toNat < y.toNat
              · rw [if_pos hzy] at hbc; cases hbc
              · rw [if_neg hzy] at hbc
                rw [if_neg (show ¬ x.toNat < z.toNat by omega),
                  if_neg (show ¬ z.toNat < x.toNat by omega)]
                exact ih bs cs hab hbc

theorem tupLeB_total (a b : Nat × Str) : tupLeB a b = true ∨ tupLeB b a = true := by
  unfold tupLeB
  by_cases hab : a.1 < b.1
  · left; rw [if_pos hab]
  · by_cases hba : b.1 < a.1
    · right; rw [if_pos hba]
    · rw [if_neg hab, if_neg hba, if_neg hba, if_neg hab]
      exact strLeB_total a.2 b.2

theorem tupLeB_trans (a b c : Nat × Str) (hab : tupLeB a b = true)
    (hbc : tupLeB b c = true) : tupLeB a c = true := by
  unfold tupLeB at hab hbc ⊢
  by_cases hab1 : a.1 < b.1
  · by_cases hbc1 : b.1 < c.1
    · rw [if_pos (show a.1 < c.1 by omega)]
    · rw [if_neg hbc1] at hbc
      by_cases hcb1 : c.1 < b.1
      · rw [if_pos hcb1] at hbc; cases hbc
      · rw [if_pos (show a.1 < c.1 by omega)]
  · rw [if_neg hab1] at hab
    by_cases hba1 : b.1 < a.1
    · rw [if_pos hba1] at hab; cases hab
    · rw [if_neg hba1] at hab
      by_cases hbc1 : b.1 < c.1
      · rw [if_pos (show a.1 < c.1 by omega)]
      · rw [if_neg hbc1] at hbc
        by_cases hcb1 : c.1 < b.1
        · rw [if_pos hcb1] at hbc; cases hbc
        · rw [if_neg hcb1] at hbc
          rw [if_neg (show ¬ a.1 < c.1 by omega),
            if_neg (show ¬ c.1 < a.1 by omega)]
          exact strLeB_trans a.2 b.2 c.2 hab hbc

instance : IsTotal (Nat × Str) tupGe := ⟨fun a b => tupLeB_total b a⟩

instance : IsTrans (Nat × Str) tupGe :=
  ⟨fun _ _ _ h1 h2 => tupLeB_trans _ _ _ h2 h1⟩

theorem tupGe_fst {a b : Nat × Str} (h : tupGe a b) : b.1 ≤ a.1 := by
  unfold tupGe tupLeB at h
  by_cases hba : b.1 < a.1
  · omega
  · rw [if_neg hba] at h
    by_cases hab : a.1 < b.1
    · rw [if_pos hab] at h; cases h
    · omega

/-- fuzzywuzzy `process.extract(query, choices, limit)`: score every
choice, order by descending score, keep the first `limit`. -/
def fw_extract (score : Str → Str → Nat) (q : Str) (keys : List Str) (limit : Nat) :
    List (Str × Nat) :=
  (List.insertionSort scoreGe (keys.map fun k => (k, score q k))).take limit

/-- `choices = sorted([(v, k) for k, v in choices], reverse=True)` with
`choices = process.extract(match, self.index.keys(), limit=len(self.index))`. -/
def fd_sorted (score : Str → Str → Nat) (q : Str) (keys : List Str) :
    List (Nat × Str) :=
  List.insertionSort tupGe
    ((fw_extract score q keys keys.length).map fun kv => (kv.2, kv.1))

/-- `Cache.find_device(match)` (source lines 201-206): score and sort all
index keys, return the maximal-score prefix, each name paired with its
record. -/
def find_device {α : Type} (score : Str → Str → Nat) (keys : List Str)
    (val : Str → α) (q : Str) : List (Str × α) :=
  match fd_sorted score q keys with
  | [] => []
  | top :: rest =>
    ((top :: rest).takeWhile fun t => decide (t.1 = top.1)).map fun t => (t.2, val t.2)

/-- `max(score over the index keys)` (0 for an empty index). -/
def maxScore (score : Str → Str → Nat) (q : Str) (keys : List Str) : Nat :=
  (keys.map (score q)).foldr Nat.max 0

theorem le_foldr_max : ∀ (l : List Nat), ∀ x ∈ l, x ≤ l.foldr Nat.max 0 := by
  intro l
  induction l with
  | nil => intro x hx; cases hx
  | cons a l ih =>
    intro x hx
    rcases List.mem_cons.mp hx with h | h
    · rw [h, List.foldr_cons]; exact Nat.le_max_left _ _
    · rw [List.foldr_cons]; exact Nat.le_trans (ih x h) (Nat.le_max_right _ _)

theorem nat_max_left (a b : Nat) (h : b ≤ a) : Nat.max a b = a := by
  show a ⊔ b = a
  rw [Nat.max_def]
  split
  · omega
  · rfl

theorem nat_max_right (a b : Nat) (h : a ≤ b) : Nat.max a b = b := by
  show a ⊔ b = b
  rw [Nat.max_def]
  split
  · rfl
  · omega

theorem foldr_max_mem : ∀ (l : List Nat), l ≠ [] → l.foldr Nat.max 0 ∈ l := by
  intro l
  induction l with
  | nil => intro h; cases h rfl
  | cons a l ih =>
    intro _
    cases l with
    | nil =>
      rw [show ([a] : List Nat).foldr Nat.max 0 = Nat.max a 0 from rfl,
        nat_max_left a 0 (Nat.zero_le a)]
      exact List.mem_cons_self a []
    | cons b m =>
      rcases Nat.le_total ((b :: m).foldr Nat.max 0) a with h | h
      · rw [List.foldr_cons, nat_max_left _ _ h]
        exact List.mem_cons_self _ _
      · rw [List.foldr_cons, nat_max_right _ _ h]
        exact List.mem_cons_of_mem _ (ih (by simp))

theorem takeWhile_eq_filter_max :
    ∀ (l : List (Nat × Str)) (m : Nat),
      l.Pairwise (fun a b => b.1 ≤ a.1) → (∀ x ∈ l, x.1 ≤ m) →
      l.takeWhile (fun t => decide (t.1 = m)) = l.filter (fun t => decide (t.1 = m)) := by
  intro l
  induction l with
  | nil => intro m _ _; rfl
  | cons a l ih =>
    intro m hp hb
    rcases List.pairwise_cons.mp hp with ⟨ha, hp'⟩
    by_cases hm : a.1 = m
    · rw [List.takeWhile_cons, List.filter_cons]
      rw [decide_eq_true hm]
      rw [if_pos rfl, if_pos rfl]
      rw [ih m hp' (fun x hx => hb x (List.mem_cons_of_mem _ hx))]
    · have hflt : l.filter (fun t => decide (t.1 = m)) = [] := by
        rw [List.filter_eq_nil_iff]
        intro x hx
        have h1 : x.1 ≤ a.1 := ha x hx
        have h2 : a.1 ≤ m := hb a (List.mem_cons_self a l)
        simp only [decide_eq_true_eq]
        omega
      rw [List.takeWhile_cons, List.filter_cons]
      rw [decide_eq_false hm]
      rw [if_neg (by simp), if_neg (by simp)]
      rw [hflt]

theorem fd_sorted_perm (score : Str → Str → Nat) (q : Str) (keys : List Str) :
    (fd_sorted score q keys).Perm (keys.map fun k => (score q k, k)) := by
  unfold fd_sorted fw_extract
  have hlen : (List.insertionSort scoreGe (keys.map fun k => (k, score q k))).length
      = keys.length := by
    rw [(List.perm_insertionSort scoreGe _).length_eq, List.length_map]
  rw [← hlen, List.take_length]
  refine (List.perm_insertionSort tupGe _).trans ?_
  refine ((List.perm_insertionSort scoreGe _).map _).trans ?_
  rw [List.map_map]
  exact List.Perm.refl _

theorem fd_sorted_mem (score : Str → Str → Nat) (q : Str) (keys : List Str)
    (t : Nat × Str) :
    t ∈ fd_sorted score q keys ↔ ∃ j ∈ keys, t = (score q j, j) := by
  rw [(fd_sorted_perm score q keys).mem_iff]
  constructor
  · intro h
    rcases List.mem_map.mp h with ⟨j, hj, he⟩
    exact ⟨j, hj, he.symm⟩
  · rintro ⟨j, hj, he⟩
    rw [he]
    exact List.mem_map_of_mem _ hj

theorem fd_sorted_pairwise (score : Str → Str → Nat) (q : Str) (keys : List Str) :
    (fd_sorted score q keys).Pairwise tupGe :=
  List.sorted_insertionSort tupGe _

/-- C2: `find_device` returns exactly the index entries whose similarity
score ties for the maximum over all index keys — the whole top-scoring
band, never a single arbitrary pick — and the empty index yields the
empty list.  Over the resolved index with key list `keys` and record map
`val`: the result's name set is `{j ∈ keys | score q j = maxScore}`, and
the result is precisely those names paired with their records. -/
theorem find_device_ties {α : Type} (score : Str → Str → Nat) (keys : List Str)
    (val : Str → α) (q k : Str) :
    find_device score ([] : List Str) val q = [] ∧
    (k ∈ (find_device score keys val q).map Prod.fst ↔
      k ∈ keys ∧ score q k = maxScore score q keys) ∧
    find_device score keys val q
      = ((find_device score keys val q).map Prod.fst).map fun j => (j, val j) := by
  refine ⟨rfl, ?_, ?_⟩
  · unfold find_device
    cases hs : fd_sorted score q keys with
    | nil =>
      have hperm := fd_sorted_perm score q keys
      rw [hs] at hperm
      have hkeys : keys = [] := List.map_eq_nil_iff.mp hperm.symm.eq_nil
      subst hkeys
      simp
    | cons top rest =>
      have hsort := fd_sorted_pairwise score q keys
      rw [hs] at hsort
      have hpairw : (top :: rest).Pairwise (fun a b : Nat × Str => b.1 ≤ a.1) :=
        hsort.imp (fun h => tupGe_fst h)
      have hbound : ∀ x ∈ top :: rest, x.1 ≤ top.1 := by
        intro x hx
        rcases List.mem_cons.mp hx with h | h
        · rw [h]
        · exact tupGe_fst (List.rel_of_pairwise_cons hsort h)
      have hmem : ∀ t : Nat × Str, t ∈ top :: rest ↔ ∃ j ∈ keys, t = (score q j, j) := by
        intro t
        rw [← hs]
        exact fd_sorted_mem score q keys t
      obtain ⟨k0, hk0, htop0⟩ := (hmem top).mp (List.mem_cons_self top rest)
      have hkeysne : keys.map (score q) ≠ [] := by
        intro hmapnil
        have hnil : keys = [] := List.map_eq_nil_iff.mp hmapnil
        subst hnil
        rw [show fd_sorted score q [] = [] from rfl] at hs
        cases hs
      have hb1 : top.1 ≤ maxScore score q keys := by
        rw [htop0]
        exact le_foldr_max _ _ (List.mem_map_of_mem _ hk0)
      obtain ⟨k1, hk1, hk1s⟩ := List.mem_map.mp (foldr_max_mem _ hkeysne)
      have hin1 : ((maxScore score q keys : Nat), k1) ∈ top :: rest :=
        (hmem _).mpr ⟨k1, hk1, by rw [hk1s]; rfl⟩
      have hb2 : maxScore score q keys ≤ top.1 := hbound _ hin1
      have hM : top.1 = maxScore score q keys := Nat.le_antisymm hb1 hb2
      show k ∈ (((top :: rest).takeWhile fun t => decide (t.1 = top.1)).map
          (fun t => (t.2, val t.2))).map Prod.fst ↔
        k ∈ keys ∧ score q k = maxScore score q keys
      rw [takeWhile_eq_filter_max (top :: rest) top.1 hpairw hbound]
      rw [List.map_map]
      constructor
      · intro hkmem
        rcases List.mem_map.mp hkmem with ⟨t, ht, hte⟩
        rcases List.mem_filter.mp ht with ⟨htmem, htp⟩
        rcases (hmem t).mp htmem with ⟨j, hj, hje⟩
        have hjk : j = k := by
          rw [hje] at hte
          exact hte
        subst hjk
        refine ⟨hj, ?_⟩
        have ht1 : t.1 = top.1 := of_decide_eq_true htp
        rw [hje] at ht1
        rw [← hM]
        exact ht1
      · rintro ⟨hkk, hsc⟩
        apply List.mem_map.mpr
        refine ⟨(score q k, k), ?_, rfl⟩
        apply List.mem_filter.mpr
        refine ⟨(hmem _).mpr ⟨k, hkk, rfl⟩, ?_⟩
        apply decide_eq_true
        show score q k = top.1
        rw [hsc, hM]
  · unfold find_device
    cases hs : fd_sorted score q keys with
    | nil => rfl
    | cons top rest =>
      show ((top :: rest).takeWhile fun t => decide (t.1 = top.1)).map
          (fun t => (t.2, val t.2))
        = ((((top :: rest).takeWhile fun t => decide (t.1 = top.1)).map
            (fun t => (t.2, val t.2))).map Prod.fst).map fun j => (j, val j)
      rw [List.map_map, List.map_map]
      rfl

/-- C8: for a fixed index (distinct keys) and query, `find_device` returns
its tied results in a deterministic order: mapped to `(score, name)`
tuples the result list is strictly descending in the lexicographic tuple
order — descending score, and descending name among equal scores — as
produced by `sorted(..., reverse=True)`. -/
theorem find_device_sorted_desc {α : Type} (score : Str → Str → Nat) (keys : List Str)
    (val : Str → α) (q : Str) (hnd : keys.Nodup) :
    ((find_device score keys val q).map fun p => (score q p.1, p.1)).Pairwise
      (fun a b => tupGe a b ∧ a ≠ b) := by
  unfold find_device
  cases hs : fd_sorted score q keys with
  | nil => simp
  | cons top rest =>
    show ((((top :: rest).takeWhile fun t => decide (t.1 = top.1)).map
        (fun t => (t.2, val t.2))).map fun p => (score q p.1, p.1)).Pairwise
      (fun a b => tupGe a b ∧ a ≠ b)
    rw [List.map_map]
    have hsub : ((top :: rest).takeWhile fun t => decide (t.1 = top.1)).Sublist
        (top :: rest) := List.takeWhile_sublist _
    have hshape : ∀ t ∈ (top :: rest).takeWhile fun t => decide (t.1 = top.1),
        ((fun p : Str × α => ((score q p.1 : Nat), p.1)) ∘ fun t : Nat × Str =>
          (t.2, val t.2)) t = id t := by
      intro t ht
      rcases (fd_sorted_mem score q keys t).mp
          (by rw [hs]; exact hsub.subset ht) with ⟨j, hj, hje⟩
      rw [hje]
      rfl
    rw [List.map_congr_left hshape, List.map_id]
    have hsorted := fd_sorted_pairwise score q keys
    rw [hs] at hsorted
    have hnd2 : (top :: rest).Nodup := by
      have hperm := fd_sorted_perm score q keys
      rw [hs] at hperm
      refine hperm.nodup_iff.mpr ?_
      exact List.Nodup.map (fun a b hab => congrArg Prod.snd hab) hnd
    exact (List.Pairwise.sublist hsub hsorted).and (List.Nodup.sublist hsub hnd2)

/-- Witness for C8: a three-key index whose scores tie at the top. -/
theorem find_device_sorted_desc_witness :
    (["ab".toList, "c".toList, "de".toList] : List Str).Nodup ∧
    ((find_device (fun _ k => k.length) ["ab".toList, "c".toList, "de".toList]
        (fun _ => (0 : Nat)) []).map
      fun p => (p.1.length, p.1)).Pairwise (fun a b => tupGe a b ∧ a ≠ b) :=
  ⟨by decide, find_device_sorted_desc (fun _ k => k.length)
    ["ab".toList, "c".toList, "de".toList] (fun _ => (0 : Nat)) [] (by decide)⟩

/-! ## C5: index rebuild under the worker-pool schedule

`generate_index` runs `_generate_index_helper` through the twenty-thread
`do_queue(Reader, ...)` pool, so the order in which the helpers'
`self._index.update` calls land is schedule-dependent.  `sched` maps the
queued URL list to the completion order (any permutation of it);
`fun l => l` is queue order, and `generate_index` is exactly that
instance.  An uncaught helper error is rendered as an aborting error
result (in the threaded program it kills the worker and stalls
`q.join()`).  Index content is compared as the name → record mapping
(`dlookup`), the content of the Python dict. -/

def generate_index_sched (net : Str → Content × Bool) (fs : FS) (st : CacheState)
    (sched : List Str → List Str) : Except PyErr (FS × CacheState) :=
  (get_urls net fs { st with index := [], counter := 0 }).bind fun t =>
    ((sched t.2.2).foldlM (fun s u => generate_index_helper t.1 s u) t.2.1).map fun st2 =>
      (fsUpdate t.1 index_path (.jsonIndex st2.index), st2)

theorem generate_index_eq_sched_queue_order (net : Str → Content × Bool)
    (fs : FS) (st : CacheState) :
    generate_index net fs st = generate_index_sched net fs st (fun l => l) := rfl

/-- First-match association-list lookup: reading one key of a Python dict. -/
def dlookup {α : Type} (k : Str) : List (Str × α) → Option α
  | [] => none
  | (k', v) :: r => if k' = k then some v else dlookup k r

/-- `orD o acc`: the value `o` overrides the accumulated value `acc`. -/
def orD {α : Type} (o : Option α) (acc : Option α) : Option α :=
  match o with
  | some v => some v
  | none => acc

theorem orD_some {α : Type} (v : α) (a : Option α) : orD (some v) a = some v := rfl

theorem orD_none {α : Type} (a : Option α) : orD none a = a := rfl

theorem dlookup_append {α : Type} (k : Str) :
    ∀ (d e : List (Str × α)),
      dlookup k (d ++ e) = orD (dlookup k d) (dlookup k e) := by
  intro d e
  induction d with
  | nil => rfl
  | cons a d ih =>
    obtain ⟨k1, v1⟩ := a
    simp only [List.cons_append, dlookup]
    by_cases h : k1 = k
    · rw [if_pos h, if_pos h, orD_some]
    · rw [if_neg h, if_neg h]
      exact ih

theorem dlookup_not_mem {α : Type} (k : Str) :
    ∀ (d : List (Str × α)), k ∉ d.map Prod.fst → dlookup k d = none := by
  intro d
  induction d with
  | nil => intro _; rfl
  | cons a d ih =>
    intro h
    obtain ⟨k1, v1⟩ := a
    simp only [dlookup]
    rw [if_neg (fun he => h (by rw [← he]; exact List.mem_cons_self _ _))]
    exact ih (fun hm => h (List.mem_cons_of_mem _ hm))

theorem dlookup_mem {α : Type} (k : Str) :
    ∀ (d : List (Str × α)) (v : α), dlookup k d = some v → k ∈ d.map Prod.fst := by
  intro d
  induction d with
  | nil => intro v h; cases h
  | cons a d ih =>
    intro v h
    obtain ⟨k1, v1⟩ := a
    simp only [dlookup] at h
    by_cases he : k1 = k
    · rw [← he]; exact List.mem_cons_self _ _
    · rw [if_neg he] at h
      exact List.mem_cons_of_mem _ (ih v h)

theorem dlookup_replace_ne {α : Type} (k k' : Str) (v : α) (hkk : ¬ k' = k) :
    ∀ d : List (Str × α),
      dlookup k (d.map (fun kv => if kv.1 = k' then (k', v) else kv)) = dlookup k d := by
  intro d
  induction d with
  | nil => rfl
  | cons a d ih =>
    obtain ⟨k1, v1⟩ := a
    simp only [List.map_cons]
    by_cases h1 : k1 = k'
    · rw [if_pos h1]
      simp only [dlookup]
      rw [if_neg hkk, if_neg (fun hh => hkk (h1.symm.trans hh))]
      exact ih
    · rw [if_neg h1]
      simp only [dlookup]
      by_cases h2 : k1 = k
      · rw [if_pos h2, if_pos h2]
      · rw [if_neg h2, if_neg h2]
        exact ih

theorem dlookup_replace_eq {α : Type} (k : Str) (v : α) :
    ∀ d : List (Str × α), k ∈ d.map Prod.fst →
      dlookup k (d.map (fun kv => if kv.1 = k then (k, v) else kv)) = some v := by
  intro d
  induction d with
  | nil => intro h; cases h
  | cons a d ih =>
    intro h
    obtain ⟨k1, v1⟩ := a
    simp only [List.map_cons]
    by_cases h1 : k1 = k
    · rw [if_pos h1]
      simp [dlookup]
    · rw [if_neg h1]
      simp only [dlookup]
      rw [if_neg h1]
      refine ih ?_
      rcases List.mem_cons.mp h with he | hm
      · exact absurd he.symm h1
      · exact hm

theorem dlookup_dictSet {α : Type} (k k' : Str) (v : α) (d : List (Str × α)) :
    dlookup k (dictSet d k' v) = if k' = k then some v else dlookup k d := by
  unfold dictSet
  by_cases hm : k' ∈ d.map Prod.fst
  · rw [if_pos hm]
    by_cases hk : k' = k
    · rw [if_pos hk]
      subst hk
      exact dlookup_replace_eq k' v d hm
    · rw [if_neg hk]
      exact dlookup_replace_ne k k' v hk d
  · rw [if_neg hm, dlookup_append]
    by_cases hk : k' = k
    · rw [if_pos hk]
      rw [dlookup_not_mem k d (hk ▸ hm), orD_none]
      show dlookup k [(k', v)] = some v
      simp [dlookup, hk]
    · rw [if_neg hk]
      cases hd : dlookup k d
      · rw [orD_none]
        show dlookup k [(k', v)] = none
        simp [dlookup, hk]
      · rw [orD_some]

theorem dictSet_keys {α : Type} (d : List (Str × α)) (k : Str) (v : α) :
    (dictSet d k v).map Prod.fst
      = if k ∈ d.map Prod.fst then d.map Prod.fst else d.map Prod.fst ++ [k] := by
  unfold dictSet
  by_cases hm : k ∈ d.map Prod.fst
  · rw [if_pos hm, if_pos hm, List.map_map]
    apply List.map_congr_left
    intro kv _
    by_cases h : kv.1 = k
    · show (if kv.1 = k then (k, v) else kv).1 = kv.1
      rw [if_pos h]
      exact h.symm
    · show (if kv.1 = k then (k, v) else kv).1 = kv.1
      rw [if_neg h]
  · rw [if_neg hm, if_neg hm, List.map_append]
    rfl

theorem dictSet_keys_nodup {α : Type} (d : List (Str × α)) (k : Str) (v : α)
    (h : (d.map Prod.fst).Nodup) : ((dictSet d k v).map Prod.fst).Nodup := by
  rw [dictSet_keys]
  by_cases hm : k ∈ d.map Prod.fst
  · rw [if_pos hm]
    exact h
  · rw [if_neg hm]
    rw [List.nodup_append]
    exact ⟨h, List.nodup_singleton k,
      fun x hx hxk => hm ((List.mem_singleton.mp hxk) ▸ hx)⟩

theorem dictUpdate_keys_nodup {α : Type} :
    ∀ (e d : List (Str × α)), (d.map Prod.fst).Nodup →
      ((dictUpdate d e).map Prod.fst).Nodup := by
  intro e
  induction e with
  | nil => intro d h; exact h
  | cons a e ih =>
    intro d h
    exact ih _ (dictSet_keys_nodup d a.1 a.2 h)

theorem pydict_keys_nodup {α : Type} (l : List (Str × α)) :
    ((pydict l).map Prod.fst).Nodup :=
  dictUpdate_keys_nodup l [] (by simp)

theorem dlookup_dictUpdate {α : Type} (k : Str) :
    ∀ (e d : List (Str × α)), (e.map Prod.fst).Nodup →
      dlookup k (dictUpdate d e) = orD (dlookup k e) (dlookup k d) := by
  intro e
  induction e with
  | nil => intro d _; rfl
  | cons a e ih =>
    intro d h
    obtain ⟨k1, v1⟩ := a
    rw [show dictUpdate d ((k1, v1) :: e) = dictUpdate (dictSet d k1 v1) e from rfl]
    rcases List.nodup_cons.mp (show (k1 :: e.map Prod.fst).Nodup from h) with ⟨hk1, hnd⟩
    rw [ih _ hnd]
    simp only [dlookup]
    by_cases hk : k1 = k
    · rw [if_pos hk, orD_some]
      rw [dlookup_not_mem k e (hk ▸ hk1), orD_none]
      rw [dlookup_dictSet, if_pos hk]
    · rw [if_neg hk]
      cases hl : dlookup k e
      · rw [orD_none, orD_none]
        rw [dlookup_dictSet, if_neg hk]
      · rw [orD_some, orD_some]

theorem index_pairs_congr (fs1 fs2 : FS) (u : Str)
    (hfs : fs1 (cache_path u) = fs2 (cache_path u)) :
    index_pairs fs1 u = index_pairs fs2 u := by
  unfold index_pairs pull_from_cache
  rw [hfs]

/-- The device names one cached descriptor contributes to the index. -/
def entryNames (fs : FS) (u : Str) : List Str :=
  match index_pairs fs u with
  | .ok pairs => (pydict pairs).map Prod.fst
  | .error _ => []

/-- The record one cached descriptor assigns to the name `k`, if any. -/
def entryVal (fs : FS) (u : Str) (k : Str) : Option DeviceRecord :=
  match index_pairs fs u with
  | .ok pairs => dlookup k (pydict pairs)
  | .error _ => none

/-- The helper finishes normally on `u`: its `try` body either succeeds or
raises the one exception the `except` clause catches. -/
def helperOk (fs : FS) (u : Str) : Prop :=
  match index_pairs fs u with
  | .ok _ => True
  | .error .attrError => True
  | .error _ => False

theorem entryVal_mem_entryNames (fs : FS) (u k : Str) (v : DeviceRecord)
    (h : entryVal fs u k = some v) : k ∈ entryNames fs u := by
  unfold entryVal at h
  unfold entryNames
  cases hp : index_pairs fs u with
  | error e => rw [hp] at h; cases h
  | ok pairs =>
    rw [hp] at h
    exact dlookup_mem k _ v h

theorem helperOk_congr (fs1 fs2 : FS) (u : Str)
    (hfs : fs1 (cache_path u) = fs2 (cache_path u)) :
    helperOk fs1 u ↔ helperOk fs2 u := by
  unfold helperOk
  rw [index_pairs_congr fs1 fs2 u hfs]

theorem entryVal_congr (fs1 fs2 : FS) (u k : Str)
    (hfs : fs1 (cache_path u) = fs2 (cache_path u)) :
    entryVal fs1 u k = entryVal fs2 u k := by
  unfold entryVal
  rw [index_pairs_congr fs1 fs2 u hfs]

theorem helperOk_of_ok (fs : FS) (st st' : CacheState) (u : Str)
    (h : generate_index_helper fs st u = .ok st') : helperOk fs u := by
  unfold generate_index_helper at h
  unfold helperOk
  cases hp : index_pairs fs u with
  | ok pairs => trivial
  | error e =>
    rw [hp] at h
    cases e with
    | attrError => trivial
    | ioError => exact Except.noConfusion h
    | keyError => exact Except.noConfusion h
    | typeError => exact Except.noConfusion h
    | valueError => exact Except.noConfusion h

theorem helper_ok_exists (fs : FS) (st : CacheState) (u : Str) (h : helperOk fs u) :
    ∃ st', generate_index_helper fs st u = .ok st' := by
  unfold helperOk at h
  unfold generate_index_helper
  cases hp : index_pairs fs u with
  | ok pairs => exact ⟨_, rfl⟩
  | error e =>
    rw [hp] at h
    cases e with
    | attrError => exact ⟨_, rfl⟩
    | ioError => exact False.elim h
    | keyError => exact False.elim h
    | typeError => exact False.elim h
    | valueError => exact False.elim h

theorem foldlM_helper_all_ok (fs : FS) :
    ∀ (l : List Str) (st st' : CacheState),
      l.foldlM (fun s u => generate_index_helper fs s u) st = .ok st' →
      ∀ u ∈ l, helperOk fs u := by
  intro l
  induction l with
  | nil => intro st st' _ u hu; cases hu
  | cons u0 l ih =>
    intro st st' h u hu
    rw [List.foldlM_cons] at h
    cases hh : generate_index_helper fs st u0 with
    | error e => rw [hh] at h; cases h
    | ok s1 =>
      rw [hh] at h
      rcases List.mem_cons.mp hu with he | hm
      · exact he ▸ helperOk_of_ok fs st s1 u0 hh
      · exact ih s1 st' h u hm

theorem foldlM_helper_ok_of_all (fs : FS) :
    ∀ (l : List Str) (st : CacheState), (∀ u ∈ l, helperOk fs u) →
      ∃ st', l.foldlM (fun s u => generate_index_helper fs s u) st = .ok st' := by
  intro l
  induction l with
  | nil => intro st _; exact ⟨st, rfl⟩
  | cons u0 l ih =>
    intro st hall
    obtain ⟨s1, hs1⟩ := helper_ok_exists fs st u0 (hall u0 (List.mem_cons_self _ _))
    obtain ⟨st', hst'⟩ := ih s1 (fun u hu => hall u (List.mem_cons_of_mem _ hu))
    refine ⟨st', ?_⟩
    rw [List.foldlM_cons, hs1]
    exact hst'

theorem foldlM_helper_dlookup (fs : FS) (k : Str) :
    ∀ (l : List Str) (st st' : CacheState),
      l.foldlM (fun s u => generate_index_helper fs s u) st = .ok st' →
      dlookup k st'.index
        = l.foldl (fun acc u => orD (entryVal fs u k) acc) (dlookup k st.index) := by
  intro l
  induction l with
  | nil =>
    intro st st' h
    cases h
    rfl
  | cons u0 l ih =>
    intro st st' h
    rw [List.foldlM_cons] at h
    cases hh : generate_index_helper fs st u0 with
    | error e => rw [hh] at h; cases h
    | ok s1 =>
      rw [hh] at h
      rw [List.foldl_cons]
      have hstep : dlookup k s1.index = orD (entryVal fs u0 k) (dlookup k st.index) := by
        unfold generate_index_helper at hh
        cases hp : index_pairs fs u0 with
        | ok pairs =>
          rw [hp] at hh
          have he : entryVal fs u0 k = dlookup k (pydict pairs) := by
            unfold entryVal
            rw [hp]
          have hs : s1.index = dictUpdate st.index (pydict pairs) := by
            cases hh
            rfl
          rw [hs, dlookup_dictUpdate k _ _ (pydict_keys_nodup pairs), he]
        | error e =>
          rw [hp] at hh
          cases e with
          | attrError =>
            have he : entryVal fs u0 k = none := by
              unfold entryVal
              rw [hp]
            have hs : s1.index = st.index := by
              cases hh
              rfl
            rw [hs, he, orD_none]
          | ioError => exact Except.noConfusion hh
          | keyError => exact Except.noConfusion hh
          | typeError => exact Except.noConfusion hh
          | valueError => exact Except.noConfusion hh
      rw [ih s1 st' h, hstep]

theorem foldl_orD_congr (g1 g2 : Str → Option DeviceRecord) :
    ∀ (l : List Str) (a : Option DeviceRecord),
      (∀ u ∈ l, g1 u = g2 u) →
      l.foldl (fun acc u => orD (g1 u) acc) a = l.foldl (fun acc u => orD (g2 u) acc) a := by
  intro l
  induction l with
  | nil => intro a _; rfl
  | cons u0 l ih =>
    intro a hg
    rw [List.foldl_cons, List.foldl_cons, hg u0 (List.mem_cons_self _ _)]
    exact ih _ (fun u hu => hg u (List.mem_cons_of_mem _ hu))

theorem foldl_orD_perm (g : Str → Option DeviceRecord) :
    ∀ {l1 l2 : List Str}, l1.Perm l2 → l1.Nodup →
      (∀ u ∈ l1, ∀ v ∈ l1, u ≠ v → g u = none ∨ g v = none) →
      ∀ (a : Option DeviceRecord),
        l1.foldl (fun acc u => orD (g u) acc) a = l2.foldl (fun acc u => orD (g u) acc) a := by
  intro l1 l2 hp
  induction hp with
  | nil => intro _ _ a; rfl
  | cons x p ih =>
    intro hnd hdj a
    rw [List.foldl_cons, List.foldl_cons]
    exact ih (List.nodup_cons.mp hnd).2
      (fun u hu v hv huv =>
        hdj u (List.mem_cons_of_mem _ hu) v (List.mem_cons_of_mem _ hv) huv) _
  | swap x y l =>
    intro hnd hdj a
    rw [List.foldl_cons, List.foldl_cons, List.foldl_cons, List.foldl_cons]
    have hxy : y ≠ x := by
      rcases List.nodup_cons.mp hnd with ⟨hy, _⟩
      exact fun he => hy (he ▸ List.mem_cons_self x l)
    have hcase := hdj y (List.mem_cons_self _ _)
      x (List.mem_cons_of_mem _ (List.mem_cons_self x l)) hxy
    have hsw : orD (g x) (orD (g y) a) = orD (g y) (orD (g x) a) := by
      rcases hcase with hgy | hgx
      · rw [hgy, orD_none, orD_none]
      · rw [hgx, orD_none, orD_none]
    rw [hsw]
  | trans p1 p2 ih1 ih2 =>
    intro hnd hdj a
    rw [ih1 hnd hdj a]
    exact ih2 (p1.nodup_iff.mp hnd)
      (fun u hu v hv huv =>
        hdj u (p1.mem_iff.mpr hu) v (p1.mem_iff.mpr hv) huv) a

/-- C5 (amended): `generate_index` rebuilds the index wholesale — the
in-memory index held before a rebuild is reset to `{}` first and cannot
influence the result — but the rebuilt content is in general a function
of the cached descriptor contents *and* the worker schedule: when two
descriptors define the same `dname`, the surviving record is
last-writer-wins in completion order.  When no device name is contributed
by two different URLs of the memoised (non-empty) URL list, and no URL's
cache path collides with the `index.json` path the rebuild overwrites, a
successful rebuild is schedule-independent: rebuilding again, under any
schedule, succeeds and produces identical index content (the same
name → record mapping). -/
theorem generate_index_content_pure (net : Str → Content × Bool)
    (fs fs1 : FS) (st st1 : CacheState) (u0 : Str) (us : List Str)
    (σ1 σ2 : List Str → List Str)
    (hm : st.urls = some (u0 :: us))
    (hσ1 : (σ1 (u0 :: us)).Perm (u0 :: us))
    (hσ2 : (σ2 (u0 :: us)).Perm (u0 :: us))
    (h1 : generate_index_sched net fs st σ1 = .ok (fs1, st1))
    (hpath : ∀ u ∈ u0 :: us, cache_path u ≠ index_path)
    (hnd : (u0 :: us).Nodup)
    (hdisj : ∀ u ∈ u0 :: us, ∀ v ∈ u0 :: us, u ≠ v →
      ∀ n, n ∈ entryNames fs u → n ∉ entryNames fs v) :
    (∀ ix, generate_index_sched net fs { st with index := ix } σ1
        = generate_index_sched net fs st σ1) ∧
    ∃ fs2 st2, generate_index_sched net fs1 st1 σ2 = .ok (fs2, st2) ∧
      ∀ k, dlookup k st2.index = dlookup k st1.index := by
  refine ⟨fun ix => rfl, ?_⟩
  unfold generate_index_sched at h1
  have hg : get_urls net fs { st with index := [], counter := 0 }
      = .ok (fs, { st with index := [], counter := 0 }, u0 :: us) := by
    unfold get_urls
    rw [show ({ st with index := [], counter := 0 } : CacheState).urls
      = some (u0 :: us) from hm]
  rw [hg, except_bind_ok] at h1
  change ((σ1 (u0 :: us)).foldlM (fun s u => generate_index_helper fs s u)
      { st with index := [], counter := 0 }).map
    (fun st2 => (fsUpdate fs index_path (.jsonIndex st2.index), st2))
      = .ok (fs1, st1) at h1
  cases hf : (σ1 (u0 :: us)).foldlM (fun s u => generate_index_helper fs s u)
      { st with index := [], counter := 0 } with
  | error e => rw [hf, except_map_error] at h1; cases h1
  | ok stB =>
    rw [hf, except_map_ok] at h1
    simp only [Except.ok.injEq, Prod.mk.injEq] at h1
    obtain ⟨hfs1, hst1⟩ := h1
    subst hst1
    subst hfs1
    have hurlsB : stB.urls = some (u0 :: us) := by
      rw [foldlM_helper_urls fs (σ1 (u0 :: us)) _ stB hf]
      exact hm
    have hallOk : ∀ u ∈ u0 :: us, helperOk fs u := by
      intro u hu
      exact foldlM_helper_all_ok fs (σ1 (u0 :: us)) _ stB hf u (hσ1.mem_iff.mpr hu)
    have hfs1u : ∀ u ∈ u0 :: us,
        fsUpdate fs index_path (.jsonIndex stB.index) (cache_path u)
          = fs (cache_path u) := by
      intro u hu
      show (if cache_path u = index_path then some (.jsonIndex stB.index)
        else fs (cache_path u)) = fs (cache_path u)
      rw [if_neg (hpath u hu)]
    have hallOk2 : ∀ u ∈ σ2 (u0 :: us),
        helperOk (fsUpdate fs index_path (.jsonIndex stB.index)) u := by
      intro u hu
      have hu' := hσ2.mem_iff.mp hu
      exact (helperOk_congr _ fs u (hfs1u u hu')).mpr (hallOk u hu')
    obtain ⟨stC, hf2⟩ := foldlM_helper_ok_of_all
      (fsUpdate fs index_path (.jsonIndex stB.index)) (σ2 (u0 :: us))
      { stB with index := [], counter := 0 } hallOk2
    refine ⟨fsUpdate (fsUpdate fs index_path (.jsonIndex stB.index)) index_path
      (.jsonIndex stC.index), stC, ?_, ?_⟩
    · unfold generate_index_sched
      have hg2 : get_urls net (fsUpdate fs index_path (.jsonIndex stB.index))
          { stB with index := [], counter := 0 }
          = .ok (fsUpdate fs index_path (.jsonIndex stB.index),
              { stB with index := [], counter := 0 }, u0 :: us) := by
        unfold get_urls
        rw [show ({ stB with index := [], counter := 0 } : CacheState).urls
          = some (u0 :: us) from hurlsB]
      rw [hg2, except_bind_ok]
      change ((σ2 (u0 :: us)).foldlM
          (fun s u => generate_index_helper
            (fsUpdate fs index_path (.jsonIndex stB.index)) s u)
          { stB with index := [], counter := 0 }).map
        (fun st2 => (fsUpdate (fsUpdate fs index_path (.jsonIndex stB.index))
          index_path (.jsonIndex st2.index), st2))
          = .ok (fsUpdate (fsUpdate fs index_path (.jsonIndex stB.index)) index_path
              (.jsonIndex stC.index), stC)
      rw [hf2, except_map_ok]
    · intro k
      have e1 := foldlM_helper_dlookup fs k (σ1 (u0 :: us)) _ stB hf
      have e2 := foldlM_helper_dlookup (fsUpdate fs index_path (.jsonIndex stB.index))
        k (σ2 (u0 :: us)) _ stC hf2
      rw [e1, e2]
      have e3 : ∀ u ∈ σ2 (u0 :: us),
          entryVal (fsUpdate fs index_path (.jsonIndex stB.index)) u k
            = entryVal fs u k := by
        intro u hu
        exact entryVal_congr _ fs u k (hfs1u u (hσ2.mem_iff.mp hu))
      rw [foldl_orD_congr
        (fun u => entryVal (fsUpdate fs index_path (.jsonIndex stB.index)) u k)
        (fun u => entryVal fs u k) (σ2 (u0 :: us)) _ e3]
      show (σ2 (u0 :: us)).foldl (fun acc u => orD (entryVal fs u k) acc) none
        = (σ1 (u0 :: us)).foldl (fun acc u => orD (entryVal fs u k) acc) none
      have hdisj' : ∀ u ∈ σ2 (u0 :: us), ∀ v ∈ σ2 (u0 :: us), u ≠ v →
          entryVal fs u k = none ∨ entryVal fs v k = none := by
        intro u hu v hv huv
        by_cases hgu : entryVal fs u k = none
        · exact Or.inl hgu
        · right
          by_cases hgv : entryVal fs v k = none
          · exact hgv
          · exfalso
            rcases Option.ne_none_iff_exists'.mp hgu with ⟨vu, hvu⟩
            rcases Option.ne_none_iff_exists'.mp hgv with ⟨vv, hvv⟩
            exact hdisj u (hσ2.mem_iff.mp hu) v (hσ2.mem_iff.mp hv) huv k
              (entryVal_mem_entryNames fs u k vu hvu)
              (entryVal_mem_entryNames fs v k vv hvv)
      exact foldl_orD_perm (fun u => entryVal fs u k)
        (hσ2.trans hσ1.symm) (hσ2.nodup_iff.mpr hnd) hdisj' none

/-- A descriptor whose single device element is named `"X"`. -/
def collidingDevice : Device := ⟨[("dname".toList, "X".toList)], [], none, none, none⟩

def pdscA : Str := "http://v.com/a.pdsc".toList

def pdscB : Str := "http://v.com/b.pdsc".toList

/-- Two cached descriptors that both define the device name `"X"`. -/
def twoPdscFS : FS := fun p =>
  if p = cache_path pdscA then some (.page (.ok ⟨[collidingDevice], []⟩))
  else if p = cache_path pdscB then some (.page (.ok ⟨[collidingDevice], []⟩))
  else none

/-- One cached descriptor defining the device name `"X"`. -/
def onePdscFS : FS := fun p =>
  if p = cache_path pdscA then some (.page (.ok ⟨[collidingDevice], []⟩)) else none

def quietNet : Str → Content × Bool := fun _ => (.page (.ok ⟨[], []⟩), true)

/-- C5 counterexample: the rebuilt index is not a pure function of the
cached descriptor contents alone.  With two cached descriptors that both
define the device name `"X"`, the record surviving in the index is
last-writer-wins in the worker-completion order: under the queue-order
schedule the record from `b.pdsc` survives, under the reversed schedule
the one from `a.pdsc`, and the two contents differ at `"X"`.  Two runs
over the same unchanged cached files can therefore yield different index
content. -/
theorem generate_index_schedule_dependent :
    (generate_index_sched quietNet twoPdscFS ⟨[], some [pdscA, pdscB], 0, []⟩
        (fun l => l)).map (fun p => p.2.index)
      = .ok [("X".toList, ⟨pdscB, some [], none, none, none⟩)] ∧
    (generate_index_sched quietNet twoPdscFS ⟨[], some [pdscA, pdscB], 0, []⟩
        (fun l => l.reverse)).map (fun p => p.2.index)
      = .ok [("X".toList, ⟨pdscA, some [], none, none, none⟩)] ∧
    dlookup "X".toList
        [("X".toList, (⟨pdscB, some [], none, none, none⟩ : DeviceRecord))]
      ≠ dlookup "X".toList
        [("X".toList, (⟨pdscA, some [], none, none, none⟩ : DeviceRecord))] :=
  ⟨rfl, rfl, by decide⟩

/-- Witness for C5 (amended): a single cached descriptor, rebuilt twice
under the queue-order schedule. -/
theorem generate_index_content_pure_witness :
    generate_index_sched quietNet onePdscFS ⟨[], some [pdscA], 0, []⟩ (fun l => l)
      = .ok (fsUpdate onePdscFS index_path
            (.jsonIndex [("X".toList, ⟨pdscA, some [], none, none, none⟩)]),
          ⟨[("X".toList, ⟨pdscA, some [], none, none, none⟩)], some [pdscA], 1, []⟩) ∧
    ((∀ ix, generate_index_sched quietNet onePdscFS
          { (⟨[], some [pdscA], 0, []⟩ : CacheState) with index := ix } (fun l => l)
        = generate_index_sched quietNet onePdscFS ⟨[], some [pdscA], 0, []⟩
            (fun l => l)) ∧
      ∃ fs2 st2,
        generate_index_sched quietNet
            (fsUpdate onePdscFS index_path
              (.jsonIndex [("X".toList, ⟨pdscA, some [], none, none, none⟩)]))
            ⟨[("X".toList, ⟨pdscA, some [], none, none, none⟩)], some [pdscA], 1, []⟩
            (fun l => l)
          = .ok (fs2, st2) ∧
        ∀ k, dlookup k st2.index
          = dlookup k (⟨[("X".toList, ⟨pdscA, some [], none, none, none⟩)],
              some [pdscA], 1, []⟩ : CacheState).index) :=
  ⟨rfl,
   generate_index_content_pure quietNet onePdscFS
     (fsUpdate onePdscFS index_path
       (.jsonIndex [("X".toList, ⟨pdscA, some [], none, none, none⟩)]))
     ⟨[], some [pdscA], 0, []⟩
     ⟨[("X".toList, ⟨pdscA, some [], none, none, none⟩)], some [pdscA], 1, []⟩
     pdscA [] (fun l => l) (fun l => l) rfl (List.Perm.refl _) (List.Perm.refl _)
     rfl (by decide) (by decide)
     (by
       intro u hu v hv huv
       rw [List.mem_singleton] at hu hv
       exact absurd (hu.trans hv.symm) huv)⟩
